import Mathlib

/-!
Verification of the tfjs-layers model-graph utilities.

A shallow embedding, in Lean, of the parts of the repository that the
verified claims are about:

* `isModelSequentialLike` and the trailing parameter-count lines of
  `printSummary` (src/src/utils/layer_utils.ts and src/unnamed/part_001);
* `ModelTrainingYielder`, `BaseLogger` and `CustomCallback`
  (src/unnamed/part_001);
* the save / load protocol and the class-weight resolution described by the
  specification (the implementing code is not part of the corpus; the tests
  in src/src/model_save_test.ts and src/unnamed/part_000 exercise it);
* `toDownloadAnchors` (src/src/engine/save_load.ts).

JavaScript numbers that are integral in the source (`Date.now()` readings,
batch counters, parameter counts) are embedded as `Nat`; metric values and
weight entries are embedded as `ℚ`.  Fallible operations return `Option` or
`Except String`.
-/

/-! ## Layer-graph model (layer_utils.ts / part_001)

A `GNode` records one application of a layer (`Node` in the source); nodes
are compared by identity in the source (`nodes.indexOf(node)`), embedded
here as a numeric identity `nid`.  A `GLayer` keeps the identities of its
inbound nodes.  A `ModelGraph` carries the depth buckets `nodesByDepth`
(the source iterates the object keys in ascending depth order, embedded as
a list) and the layer list. -/

structure GNode where
  nid : Nat
  inboundLayers : List Nat
deriving DecidableEq, Repr

structure GLayer where
  lid : Nat
  inboundNodes : List Nat
deriving DecidableEq, Repr

structure ModelGraph where
  nodesByDepth : List (List GNode)
  layers : List GLayer
deriving DecidableEq, Repr

/-- The loop condition of the first loop of `isModelSequentialLike`
(layer_utils.ts lines 110-111):
`depthNodes.length > 1 || depthNodes.length === 1 && depthNodes[0].inboundLayers.length > 1`. -/
def depthNodesViolation (depthNodes : List GNode) : Bool :=
  decide (1 < depthNodes.length) ||
    (decide (depthNodes.length = 1) &&
      decide (1 < (depthNodes.headD ⟨0, []⟩).inboundLayers.length))

/-- The first loop of `isModelSequentialLike` (layer_utils.ts lines
109-116): walk the depth buckets, break with failure on a violating bucket,
otherwise accumulate the visited nodes (`nodes.push(...depthNodes)`), here
by identity. -/
def collectChainNodes : List (List GNode) → Option (List Nat)
  | [] => some []
  | depthNodes :: rest =>
    if depthNodesViolation depthNodes then none
    else
      match collectChainNodes rest with
      | none => none
      | some ns => some (depthNodes.map GNode.nid ++ ns)

/-- The inner flag loop of the shared-layer search (layer_utils.ts lines
120-130): scan a layer's `inboundNodes`; the first one found among the
visited nodes sets `flag`, a second one found while `flag` is set makes the
model non-sequential-like. -/
def hasSecondVisited (visited : List Nat) : List Nat → Bool → Bool
  | [], _ => false
  | n :: rest, flag =>
    if visited.contains n then
      if flag then true else hasSecondVisited visited rest true
    else hasSecondVisited visited rest flag

/-- Translation of `isModelSequentialLike` (layer_utils.ts lines 102-137).  The variant in
src/unnamed/part_001 (lines 617-657) is identical except that it first
short-circuits to `true` for `Sequential` instances; the graph algorithm
embedded here is the one both variants share. -/
def isModelSequentialLike (model : ModelGraph) : Bool :=
  match collectChainNodes model.nodesByDepth with
  | none => false
  | some visited =>
    !(model.layers.any fun layer => hasSecondVisited visited layer.inboundNodes false)

/-- All node identities of the model, bucket by bucket (the nodes visited
by the first loop when no bucket violates). -/
def visitedNodeIds (model : ModelGraph) : List Nat :=
  model.nodesByDepth.flatten.map GNode.nid

/-- The sequential-like condition exactly as the claim states it: every
depth bucket contains exactly one node, that node has exactly one inbound
layer, and no layer has more than one of its inbound nodes among the
visited nodes. -/
def sequentialLikeSpecClaim (model : ModelGraph) : Bool :=
  (model.nodesByDepth.all fun b =>
    decide (b.length = 1) && b.all fun n => decide (n.inboundLayers.length = 1)) &&
  (model.layers.all fun l =>
    decide (l.inboundNodes.countP (fun i => (visitedNodeIds model).contains i) ≤ 1))

/-- A linear chain input → dense, as the container topology builds it:
depth 0 holds the dense layer's node (one inbound layer), depth 1 holds the
input layer's node, which has no inbound layer. -/
def chainModel : ModelGraph :=
  { nodesByDepth := [[⟨1, [0]⟩], [⟨0, []⟩]],
    layers := [⟨0, [0]⟩, ⟨1, [1]⟩] }

/-! ## ModelTrainingYielder (src/unnamed/part_001 lines 212-281)

`Date.now()` readings are external inputs: the constructor and each call of
`maybeYieldOnBatch` receive the current time in integer milliseconds.  The
JavaScript number `autoYieldEveryBatches` can be `Infinity` (when the mean
measured batch duration is `0`, `16 / 0` evaluates to `Infinity` and the
`< 1` clamp does not fire), so its value is embedded as `AutoYield`. -/

def AUTO_YIELD_THRESHOLD_MILLIS : Nat := 16

def AUTO_YIELD_DECISION_BATCH_COUNT : Nat := 2

inductive AutoYield where
  | fin : Nat → AutoYield
  | inf : AutoYield
deriving DecidableEq, Repr

structure YielderState where
  batchCount : Nat
  lastYieldBatchCount : Nat
  batchStartMillis : Nat
  batchDurationsMillis : List Nat
  autoYieldEveryBatches : Option AutoYield
deriving DecidableEq, Repr

/-- The constructor of `ModelTrainingYielder` (lines 222-227); `now` is the
`Date.now()` reading.  `lastYieldBatchCount` is uninitialized in the source
and only read after it has been assigned; it is given the value 0 here. -/
def yielderInit (now : Nat) : YielderState :=
  { batchCount := 0
    lastYieldBatchCount := 0
    batchStartMillis := now
    batchDurationsMillis := []
    autoYieldEveryBatches := none }

/-- The arithmetic mean (`mean` of src/utils/math_utils, imported by the
callbacks file but not part of the corpus; the sum of the list divided by
its length, over ℚ). -/
def mean (xs : List Nat) : ℚ := (xs.sum : ℚ) / (xs.length : ℚ)

/-- Lines 261-266: `Math.floor(AUTO_YIELD_THRESHOLD_MILLIS / mean(durations))`
followed by the `< 1` clamp.  When the mean is `0` the JavaScript division
yields `Infinity` (`AutoYield.inf`), which the clamp leaves unchanged; for
the integer-millisecond durations involved the float result agrees with
exact rational arithmetic. -/
def computeAutoYield (durations : List Nat) : AutoYield :=
  if durations.sum = 0 then AutoYield.inf
  else
    let q : Nat := ⌊(AUTO_YIELD_THRESHOLD_MILLIS : ℚ) / mean durations⌋₊
    if q < 1 then AutoYield.fin 1 else AutoYield.fin q

/-- Line 273: `batchCount - lastYieldBatchCount >= autoYieldEveryBatches`;
`Infinity` is never reached. -/
def yieldDue (a : AutoYield) (elapsed : Nat) : Bool :=
  match a with
  | AutoYield.fin k => decide (k ≤ elapsed)
  | AutoYield.inf => false

structure YieldStepResult where
  state : YielderState
  yielded : Bool
deriving DecidableEq, Repr

/-- Translation of `maybeYieldOnBatch` (lines 247-280); `now` is the `Date.now()` reading
taken at line 252 (`yielded = true` records that the call resolved one log
tensor and awaited a frame).  While `autoYieldEveryBatches` is null the
call always yields; a batch duration is recorded only from the second batch
on, and once `AUTO_YIELD_DECISION_BATCH_COUNT` durations have been
recorded, `autoYieldEveryBatches` is computed.  Afterwards the call yields
exactly when enough batches have elapsed since the last yield. -/
def maybeYieldOnBatch (st : YielderState) (now : Nat) : YieldStepResult :=
  let batchCount := st.batchCount + 1
  match st.autoYieldEveryBatches with
  | none =>
    let t := now
    let durations :=
      if 1 < batchCount then st.batchDurationsMillis ++ [t - st.batchStartMillis]
      else st.batchDurationsMillis
    let auto :=
      if 1 < batchCount ∧ AUTO_YIELD_DECISION_BATCH_COUNT ≤ durations.length then
        some (computeAutoYield durations)
      else st.autoYieldEveryBatches
    { state :=
        { batchCount := batchCount
          lastYieldBatchCount := batchCount
          batchStartMillis := t
          batchDurationsMillis := durations
          autoYieldEveryBatches := auto }
      yielded := true }
  | some a =>
    if yieldDue a (batchCount - st.lastYieldBatchCount) then
      { state := { st with batchCount := batchCount, lastYieldBatchCount := batchCount }
        yielded := true }
    else
      { state := { st with batchCount := batchCount }
        yielded := false }

/-! ## Logs and BaseLogger (src/unnamed/part_001 lines 288-359)

A value in an `UnresolvedLogs` dictionary is either a plain number or a
pending `Scalar` tensor; the rational carried by `LogValue.scalar` is the
value the tensor realizes to.  Dictionaries are embedded as association
lists looked up with `alookup`. -/

inductive LogValue where
  | num : ℚ → LogValue
  | scalar : ℚ → LogValue
deriving DecidableEq, Repr

abbrev UnresolvedLogs := List (String × LogValue)

def alookup (k : String) : UnresolvedLogs → Option LogValue
  | [] => none
  | (k', v) :: rest => if k' = k then some v else alookup k rest

def aset (k : String) (v : LogValue) : UnresolvedLogs → UnresolvedLogs
  | [] => [(k, v)]
  | (k', v') :: rest => if k' = k then (k, v) :: rest else (k', v') :: aset k v rest

/-- The numeric value found at a key (`0` when the key is absent; the
`'size'` entry of a batch log is always a plain number). -/
def numAt (k : String) (logs : UnresolvedLogs) : ℚ :=
  match alookup k logs with
  | some (LogValue.num x) => x
  | _ => 0

/-- Whether a key holds a plain number. -/
def isNumAt (k : String) (logs : UnresolvedLogs) : Bool :=
  match alookup k logs with
  | some (LogValue.num _) => true
  | _ => false

structure BaseLoggerState where
  seen : ℚ
  totals : UnresolvedLogs
deriving DecidableEq, Repr

/-- Translation of `BaseLogger.onEpochBegin` (lines 301-304): reset `seen` and `totals`. -/
def baseLoggerOnEpochBegin : BaseLoggerState := { seen := 0, totals := [] }

/-- The realized value currently accumulated for a key (0 when the key is
absent, matching the `0` / `getScalar(0)` initialization of a new key). -/
def totalValue (k : String) (totals : UnresolvedLogs) : ℚ :=
  match alookup k totals with
  | some (LogValue.num x) => x
  | some (LogValue.scalar x) => x
  | none => 0

/-- The body of the `for (const key in logs)` loop of
`BaseLogger.onBatchEnd` (lines 315-337): a numeric value adds
`value * batchSize` to the running total; a pending scalar does the same
through the tensor backend (`add`/`mul`), starting from `getScalar(0)` when
the key is new and disposing the superseded total.  In both branches the
prior total contributes its realized value. -/
def accumulateEntry (batchSize : ℚ) (totals : UnresolvedLogs) (e : String × LogValue) :
    UnresolvedLogs :=
  match e.2 with
  | LogValue.num v =>
    aset e.1 (LogValue.num (totalValue e.1 totals + v * batchSize)) totals
  | LogValue.scalar v =>
    aset e.1 (LogValue.scalar (totalValue e.1 totals + v * batchSize)) totals

/-- Translation of `BaseLogger.onBatchEnd` (lines 306-338) without the auto-yield side
call: read the batch size (`logs['size'] == null ? 0 : logs['size']`, the
value of `numAt "size"`), add it to `seen`, and accumulate every entry of
the batch logs. -/
def baseLoggerOnBatchEnd (st : BaseLoggerState) (logs : UnresolvedLogs) : BaseLoggerState :=
  let batchSize : ℚ := numAt "size" logs
  { seen := st.seen + batchSize
    totals := logs.foldl (accumulateEntry batchSize) st.totals }

/-- Translation of `BaseLogger.onEpochEnd` (lines 340-358): for every key of
`params['metrics']` with an accumulated total, write the total divided by
`seen` into the epoch-end logs (through the tensor backend when the total
is a pending scalar: `mul(div(1, seen), total)`). -/
def baseLoggerOnEpochEnd (st : BaseLoggerState) (metrics : List String)
    (logs : UnresolvedLogs) : UnresolvedLogs :=
  metrics.foldl
    (fun logs key =>
      match alookup key st.totals with
      | none => logs
      | some (LogValue.num total) => aset key (LogValue.num (total / st.seen)) logs
      | some (LogValue.scalar total) =>
        aset key (LogValue.scalar ((1 / st.seen) * total)) logs)
    logs

/-- One epoch of `BaseLogger` batch-end accumulation, starting from the
state `onEpochBegin` leaves. -/
def baseLoggerRunEpoch (batches : List UnresolvedLogs) : BaseLoggerState :=
  batches.foldl baseLoggerOnBatchEnd baseLoggerOnEpochBegin

/-! ## CustomCallback (src/unnamed/part_001 lines 415-486)

The user hooks are external; a config records which hooks the user
supplied, and each lifecycle method is embedded as the logs dictionary the
user hook observes (`none` when no hook was supplied, so user code runs
only in the `some` case). -/

/-- Modelled from the spec: `resolveScalarsInLogs` (src/logs.ts, imported
at line 17 but not part of the corpus) resolves every pending deferred
metric value in the logs into a realized plain number, in place. -/
def resolveScalarsInLogs (logs : UnresolvedLogs) : UnresolvedLogs :=
  logs.map fun e =>
    match e.2 with
    | LogValue.num x => (e.1, LogValue.num x)
    | LogValue.scalar x => (e.1, LogValue.num x)

structure CustomCallbackConfig where
  hasTrainBegin : Bool
  hasTrainEnd : Bool
  hasEpochBegin : Bool
  hasEpochEnd : Bool
  hasBatchBegin : Bool
  hasBatchEnd : Bool
deriving DecidableEq, Repr

/-- Translation of `CustomCallback.onEpochBegin` (lines 445-450): when the user supplied a
hook, resolve the pending scalars in the logs and invoke the hook on the
result. -/
def customCallbackOnEpochBegin (cfg : CustomCallbackConfig) (logs : UnresolvedLogs) :
    Option UnresolvedLogs :=
  if cfg.hasEpochBegin then some (resolveScalarsInLogs logs) else none

/-- Translation of `CustomCallback.onEpochEnd` (lines 452-457). -/
def customCallbackOnEpochEnd (cfg : CustomCallbackConfig) (logs : UnresolvedLogs) :
    Option UnresolvedLogs :=
  if cfg.hasEpochEnd then some (resolveScalarsInLogs logs) else none

/-- Translation of `CustomCallback.onBatchBegin` (lines 459-464). -/
def customCallbackOnBatchBegin (cfg : CustomCallbackConfig) (logs : UnresolvedLogs) :
    Option UnresolvedLogs :=
  if cfg.hasBatchBegin then some (resolveScalarsInLogs logs) else none

/-- Translation of `CustomCallback.onBatchEnd` (lines 466-471). -/
def customCallbackOnBatchEnd (cfg : CustomCallbackConfig) (logs : UnresolvedLogs) :
    Option UnresolvedLogs :=
  if cfg.hasBatchEnd then some (resolveScalarsInLogs logs) else none

/-- Translation of `CustomCallback.onTrainBegin` (lines 473-478). -/
def customCallbackOnTrainBegin (cfg : CustomCallbackConfig) (logs : UnresolvedLogs) :
    Option UnresolvedLogs :=
  if cfg.hasTrainBegin then some (resolveScalarsInLogs logs) else none

/-- Translation of `CustomCallback.onTrainEnd` (lines 480-485). -/
def customCallbackOnTrainEnd (cfg : CustomCallbackConfig) (logs : UnresolvedLogs) :
    Option UnresolvedLogs :=
  if cfg.hasTrainEnd then some (resolveScalarsInLogs logs) else none

/-- A logs dictionary with no pending value. -/
def isResolvedLogs (logs : UnresolvedLogs) : Bool :=
  logs.all fun e =>
    match e.2 with
    | LogValue.num _ => true
    | LogValue.scalar _ => false

/-! ## Save / load protocol (spec §4.7, §6; exercised by
src/src/model_save_test.ts)

The implementing code (`Model.save`, `loadModel`, `toJSON`) is not part of
the corpus — only its tests are — so the protocol is modelled from the
specification.  A topology serializes to a JSON-like configuration tree;
weight tensors flatten into one data buffer described by an ordered list of
`{name, shape, dtype}` specs. -/

inductive DType where
  | float32 : DType
  | int32 : DType
deriving DecidableEq, Repr

/-- Modelled from the spec: a JSON-like configuration value, the target of
the recursive config-dict walk of `toJSON` / `getConfig`. -/
inductive ConfigValue where
  | num : ℚ → ConfigValue
  | str : String → ConfigValue
  | boolVal : Bool → ConfigValue
  | nullVal : ConfigValue
  | arr : List ConfigValue → ConfigValue
  | obj : List (String × ConfigValue) → ConfigValue
deriving Repr

structure WeightSpec where
  name : String
  shape : List Nat
  dtype : DType
deriving DecidableEq, Repr

/-- A weight tensor: its spec and its flat data (realized values). -/
structure Weight where
  spec : WeightSpec
  data : List ℚ
deriving DecidableEq, Repr

/-- One layer of a serialized topology: the class-name tag that keys
polymorphic deserialization, the layer name, and its declarative config. -/
structure LayerTopo where
  className : String
  lname : String
  config : List (String × ConfigValue)
deriving Repr

structure ModelTopo where
  tlayers : List LayerTopo
deriving Repr

/-- A model as the save/load protocol sees it: a topology and the ordered
list of named weights. -/
structure TModel where
  topology : ModelTopo
  weights : List Weight
deriving Repr

/-- Modelled from the spec: serialization of one layer, keyed by the
class-name tag. -/
def serializeLayer (l : LayerTopo) : ConfigValue :=
  ConfigValue.obj
    [("class_name", ConfigValue.str l.className),
     ("name", ConfigValue.str l.lname),
     ("config", ConfigValue.obj l.config)]

/-- Modelled from the spec: `toJSON`, the recursive config-dict walk over
the model topology. -/
def toJSONTopo (t : ModelTopo) : ConfigValue :=
  ConfigValue.obj
    [("class_name", ConfigValue.str "Model"),
     ("config", ConfigValue.obj
        [("layers", ConfigValue.arr (t.tlayers.map serializeLayer))])]

/-- Modelled from the spec: polymorphic layer deserialization keyed by the
class-name tag. -/
def deserializeLayer : ConfigValue → Option LayerTopo
  | ConfigValue.obj
      [("class_name", ConfigValue.str cn),
       ("name", ConfigValue.str nm),
       ("config", ConfigValue.obj c)] => some ⟨cn, nm, c⟩
  | _ => none

def mapOption (f : α → Option β) : List α → Option (List β)
  | [] => some []
  | a :: as =>
    match f a, mapOption f as with
    | some b, some bs => some (b :: bs)
    | _, _ => none

/-- Modelled from the spec: reconstruction of a topology from its JSON. -/
def deserializeTopo : ConfigValue → Option ModelTopo
  | ConfigValue.obj
      [("class_name", ConfigValue.str "Model"),
       ("config", ConfigValue.obj [("layers", ConfigValue.arr ls)])] =>
    match mapOption deserializeLayer ls with
    | some layers => some ⟨layers⟩
    | none => none
  | _ => none

/-- Number of elements of a tensor of the given shape. -/
def numel (shape : List Nat) : Nat := shape.foldl (· * ·) 1

/-- The artifacts handed to an IOHandler's `save` and returned by its
`load`: `{modelTopology, weightSpecs, weightData}`. -/
structure ModelArtifacts where
  modelTopology : ConfigValue
  weightSpecs : List WeightSpec
  weightData : List ℚ
deriving Repr

/-- Modelled from the spec: `Model.save` collects the weight specs
`{name, shape, dtype}` and concatenates the raw weight values into one
buffer, alongside the `toJSON` topology. -/
def modelToArtifacts (m : TModel) : ModelArtifacts :=
  { modelTopology := toJSONTopo m.topology
    weightSpecs := m.weights.map Weight.spec
    weightData := (m.weights.map Weight.data).flatten }

/-- Modelled from the spec: decoding the weight buffer back into the named
weight slots in declaration order; the buffer must supply exactly the
number of values each spec's shape demands, or loading fails. -/
def decodeWeights : List WeightSpec → List ℚ → Option (List Weight)
  | [], [] => some []
  | [], _ :: _ => none
  | sp :: rest, data =>
    if numel sp.shape ≤ data.length then
      match decodeWeights rest (data.drop (numel sp.shape)) with
      | some ws => some ({ spec := sp, data := data.take (numel sp.shape) } :: ws)
      | none => none
    else none

/-- Modelled from the spec: `loadModel` reconstructs the topology from JSON
and assigns decoded weights back in declaration order. -/
def loadModelFromArtifacts (a : ModelArtifacts) : Option TModel :=
  match deserializeTopo a.modelTopology, decodeWeights a.weightSpecs a.weightData with
  | some topo, some ws => some { topology := topo, weights := ws }
  | _, _ => none

/-- A model whose weight data lengths match their declared shapes. -/
def wellFormedModel (m : TModel) : Prop :=
  ∀ w ∈ m.weights, w.data.length = numel w.spec.shape

/-- An IOHandler as `Model.save` sees it: an object that may or may not
carry the `save` capability (a function from artifacts to a stored
result). -/
structure IOHandler where
  saveFn : Option (ModelArtifacts → ModelArtifacts)

/-- Modelled from the spec: the capability check of `Model.save` — when the
supplied handler has no `save` attribute, the save rejects with the
documented error message (src/src/model_save_test.ts lines 88-105);
otherwise the artifacts are handed to the handler. -/
def modelSave (m : TModel) (h : IOHandler) : Except String ModelArtifacts :=
  match h.saveFn with
  | none =>
    Except.error
      "Model.save() cannot proceed because the IOHandler provided does not have the `save` attribute defined."
  | some f => Except.ok (f (modelToArtifacts m))

/-! ## Class weights (spec §4.4; exercised by src/unnamed/part_000)

The implementing code (`standardizeClassWeights` and the per-sample weight
resolution inside `fit`) is not part of the corpus — only its tests are —
so it is modelled from the specification.  A class-weight map sends integer
class indices to scalar multipliers; targets are given per output as the
per-sample integer class labels (for one-hot targets the argmax index). -/

abbrev ClassWeightMap := List (Nat × ℚ)

def cwLookup (c : Nat) : ClassWeightMap → Option ℚ
  | [] => none
  | (k, w) :: rest => if k = c then some w else cwLookup c rest

def mapExcept (f : α → Except ε β) : List α → Except ε (List β)
  | [] => Except.ok []
  | a :: as =>
    match f a, mapExcept f as with
    | Except.ok b, Except.ok bs => Except.ok (b :: bs)
    | Except.error e, _ => Except.error e
    | _, Except.error e => Except.error e

/-- Modelled from the spec: per-sample loss-weight resolution for one
output.  `none` (a `null` entry) means no weighting: every sample gets
weight 1.  With a map, each sample's weight is looked up by its integer
class label; an uncovered class fails fast. -/
def sampleWeightsForOutput : Option ClassWeightMap → List Nat → Except String (List ℚ)
  | none, labels => Except.ok (labels.map fun _ => (1 : ℚ))
  | some cw, labels =>
    mapExcept
      (fun c =>
        match cwLookup c cw with
        | some w => Except.ok w
        | none => Except.error "classWeight must cover every class present in the targets")
      labels

/-- Modelled from the spec: the accepted `classWeight` configurations — a
single mapping, a per-output array of mappings or nulls, or a per-output-name
dictionary. -/
inductive ClassWeightConfig where
  | single : ClassWeightMap → ClassWeightConfig
  | perOutputArray : List (Option ClassWeightMap) → ClassWeightConfig
  | perOutputName : List (String × ClassWeightMap) → ClassWeightConfig

def nameLookup (nm : String) : List (String × ClassWeightMap) → Option ClassWeightMap
  | [] => none
  | (k, m) :: rest => if k = nm then some m else nameLookup nm rest

/-- Modelled from the spec: standardization of a `classWeight` argument to
one optional mapping per output; a per-output array must match the number
of outputs, an unknown output name fails fast, and `null` entries pass
through as `none`. -/
def standardizeClassWeights (outputNames : List String) :
    Option ClassWeightConfig → Except String (List (Option ClassWeightMap))
  | none => Except.ok (outputNames.map fun _ => none)
  | some (ClassWeightConfig.single m) =>
    if outputNames.length = 1 then Except.ok [some m]
    else Except.error "classWeight must be an array or a dictionary for a multi-output model"
  | some (ClassWeightConfig.perOutputArray l) =>
    if l.length = outputNames.length then Except.ok l
    else Except.error "classWeight array length must match the number of model outputs"
  | some (ClassWeightConfig.perOutputName mp) =>
    if mp.all fun e => outputNames.contains e.1 then
      Except.ok (outputNames.map fun nm => nameLookup nm mp)
    else Except.error "classWeight names an unknown model output"

def zipWithExcept (f : α → β → Except ε γ) : List α → List β → Except ε (List γ)
  | [], _ => Except.ok []
  | _, [] => Except.ok []
  | a :: as, b :: bs =>
    match f a b, zipWithExcept f as bs with
    | Except.ok c, Except.ok cs => Except.ok (c :: cs)
    | Except.error e, _ => Except.error e
    | _, Except.error e => Except.error e

/-- Modelled from the spec: the per-sample loss weights `fit` derives for
every output from the `classWeight` option and the per-output integer
class labels of the targets. -/
def trainingSampleWeights (outputNames : List String) (targets : List (List Nat))
    (cfg : Option ClassWeightConfig) : Except String (List (List ℚ)) :=
  match standardizeClassWeights outputNames cfg with
  | Except.error e => Except.error e
  | Except.ok cws => zipWithExcept sampleWeightsForOutput cws targets

/-! ## printSummary parameter-count lines (src/unnamed/part_001 lines
590-604 and src/src/utils/layer_utils.ts lines 82-97)

Only the trailing parameter-count block of `printSummary` is embedded: the
model data it reads (weight shapes) and the three printed lines. -/

structure SummaryWeight where
  shape : List Nat
deriving DecidableEq, Repr

structure SummaryModel where
  trainableWeights : List SummaryWeight
  nonTrainableWeights : List SummaryWeight
  collectedTrainableWeights : Option (List SummaryWeight)
deriving DecidableEq, Repr

/-- Translation of `countParams` (src/unnamed/part_001 lines 609-615):
`count += weight.shape.reduce((a, b) => a * b)`.  JavaScript's `reduce`
with no initial value folds from the first element (and throws on an empty
array — scalar-shaped weights do not occur here; that case is given the
value 0). -/
def reduceMul : List Nat → Nat
  | [] => 0
  | d :: ds => ds.foldl (· * ·) d

def countParams (weights : List SummaryWeight) : Nat :=
  weights.foldl (fun count w => count + reduceMul w.shape) 0

/-- Modelled from the spec: `countParamsInWeights`
(src/utils/generic_utils.ts, imported by layer_utils.ts but not part of the
corpus) — the total number of parameters in a list of weights, each weight
contributing the product of its shape's dimensions. -/
def countParamsInWeights (weights : List SummaryWeight) : Nat :=
  weights.foldl (fun count w => count + numel w.shape) 0

/-- The three parameter-count lines printed at the end of `printSummary` in
src/unnamed/part_001 (lines 590-604): the trainable count comes from
`collectedTrainableWeights` when that is non-null, else from
`trainableWeights`; the "Non-trainable params" line interpolates
`trainableCount` (line 603). -/
def paramsLinesPartOO1 (m : SummaryModel) : List String :=
  let trainableCount : Nat :=
    match m.collectedTrainableWeights with
    | some ws => countParams ws
    | none => countParams m.trainableWeights
  let nonTrainableCount : Nat := countParams m.nonTrainableWeights
  ["Total params: " ++ toString (trainableCount + nonTrainableCount),
   "Trainable params: " ++ toString trainableCount,
   "Non-trainable params: " ++ toString trainableCount]

/-- The three parameter-count lines printed at the end of `printSummary` in
src/src/utils/layer_utils.ts (lines 82-97): identical except that the
"Non-trainable params" line interpolates `nonTrainableCount` (line 96) and
the counts use `countParamsInWeights`. -/
def paramsLinesLayerUtils (m : SummaryModel) : List String :=
  let trainableCount : Nat :=
    match m.collectedTrainableWeights with
    | some ws => countParamsInWeights ws
    | none => countParamsInWeights m.trainableWeights
  let nonTrainableCount : Nat := countParamsInWeights m.nonTrainableWeights
  ["Total params: " ++ toString (trainableCount + nonTrainableCount),
   "Trainable params: " ++ toString trainableCount,
   "Non-trainable params: " ++ toString nonTrainableCount]

/-- A model with one trainable and one non-trainable weight of three
parameters each. -/
def balancedModel : SummaryModel :=
  { trainableWeights := [⟨[3]⟩]
    nonTrainableWeights := [⟨[3]⟩]
    collectedTrainableWeights := none }

/-! ## toDownloadAnchors (src/src/engine/save_load.ts lines 45-57)

The two file-name parameters carry JavaScript defaults (`'model.json'`,
`'weights.bin'`), applied only when the argument is `undefined`.  Both
precondition checks test `weightsDataFileName`; the first check's error
message names `modelJSONFileName`. -/

inductive JSArg where
  | undef : JSArg
  | nullArg : JSArg
  | str : String → JSArg
deriving DecidableEq, Repr

/-- A JavaScript default parameter: `undefined` takes the default, `null`
and strings pass through. -/
def resolveDefault (a : JSArg) (d : String) : Option String :=
  match a with
  | JSArg.undef => some d
  | JSArg.nullArg => none
  | JSArg.str s => some s

/-- JavaScript falsiness of a string-or-null value: `null`, `undefined` and
the empty string are falsy. -/
def falsyStr : Option String → Bool
  | none => true
  | some s => s.isEmpty

/-- Translation of `toDownloadAnchors` (lines 45-57), up to its validation: both checks
test `weightsDataFileName` (lines 49 and 53); passing them returns the
handler closure, embedded as the resolved pair of file names. -/
def toDownloadAnchors (modelJSONFileName weightsDataFileName : JSArg) :
    Except String (Option String × Option String) :=
  let mj := resolveDefault modelJSONFileName "model.json"
  let w := resolveDefault weightsDataFileName "weights.bin"
  if falsyStr w then
    Except.error "Empty, null or undefined modelJSONFileName is not allowed."
  else if falsyStr w then
    Except.error "Empty, null or undefined weightsDataFileName is not allowed."
  else Except.ok (mj, w)

/-- A small concrete model for round-trip evaluation: one dense layer with
a [2, 3] kernel and a [3] bias. -/
def roundtripDemoModel : TModel :=
  { topology := ⟨[⟨"Dense", "dense_1", [("units", ConfigValue.num 3)]⟩]⟩
    weights :=
      [⟨⟨"dense_1/kernel", [2, 3], DType.float32⟩, [1, 2, 3, 4, 5, 6]⟩,
       ⟨⟨"dense_1/bias", [3], DType.float32⟩, [0, 0, 0]⟩] }

/-! ## Theorems -/

theorem depthNodesViolation_eq_false_iff (b : List GNode) :
    depthNodesViolation b = false ↔ b.length ≤ 1 ∧ ∀ n ∈ b, n.inboundLayers.length ≤ 1 := by
  match b with
  | [] => simp [depthNodesViolation]
  | [n] => simp [depthNodesViolation]
  | n :: m :: rest => simp [depthNodesViolation]

theorem collectChainNodes_of_forall {bs : List (List GNode)}
    (h : ∀ b ∈ bs, depthNodesViolation b = false) :
    collectChainNodes bs = some (bs.flatten.map GNode.nid) := by
  induction bs with
  | nil => simp [collectChainNodes]
  | cons b rest ih =>
    have hb : depthNodesViolation b = false := h b (by simp)
    have hrest : ∀ x ∈ rest, depthNodesViolation x = false := fun x hx => h x (by simp [hx])
    simp [collectChainNodes, hb, ih hrest]

theorem collectChainNodes_eq_none {bs : List (List GNode)}
    (h : ¬ ∀ b ∈ bs, depthNodesViolation b = false) :
    collectChainNodes bs = none := by
  induction bs with
  | nil => exact absurd (by simp) h
  | cons b rest ih =>
    by_cases hb : depthNodesViolation b = false
    · have hrest : ¬ ∀ x ∈ rest, depthNodesViolation x = false := by
        intro hall
        exact h (by
          intro x hx
          rcases List.mem_cons.mp hx with hx | hx
          · exact hx ▸ hb
          · exact hall x hx)
      simp [collectChainNodes, hb, ih hrest]
    · have hb' : depthNodesViolation b = true := by
        cases hvb : depthNodesViolation b
        · exact absurd hvb hb
        · rfl
      simp [collectChainNodes, hb']

theorem hasSecondVisited_eq_false_iff (visited : List Nat) (ns : List Nat) (flag : Bool) :
    hasSecondVisited visited ns flag = false ↔
      ns.countP (fun n => visited.contains n) + (if flag then 1 else 0) ≤ 1 := by
  induction ns generalizing flag with
  | nil => cases flag <;> simp [hasSecondVisited]
  | cons n rest ih =>
    by_cases hn : n ∈ visited
    · cases flag
      · have hstep : hasSecondVisited visited (n :: rest) false =
            hasSecondVisited visited rest true := by
          simp [hasSecondVisited, hn]
        rw [hstep, ih]
        simp only [List.countP_cons]
        simp [hn]
      · have hstep : hasSecondVisited visited (n :: rest) true = true := by
          simp [hasSecondVisited, hn]
        rw [hstep]
        simp only [List.countP_cons]
        simp [hn]
    · have hstep : ∀ f, hasSecondVisited visited (n :: rest) f =
          hasSecondVisited visited rest f := by
        intro f
        simp [hasSecondVisited, hn]
      rw [hstep, ih]
      simp only [List.countP_cons]
      simp [hn]

/-- C1 (amended): `isModelSequentialLike` (hence `printSummary`'s choice of
the narrow versus wide table) returns `true` if and only if every depth
bucket of `nodesByDepth` contains at most one node, a bucket's single node
has at most one inbound layer, and no layer of the model has more than one
of its inbound nodes among the visited nodes.  In particular a linear
chain of single-input/single-output layers is sequential-like and any
graph with a node of two or more inbound layers is not. -/
theorem isModelSequentialLike_characterization (m : ModelGraph) :
    isModelSequentialLike m = true ↔
      ((∀ b ∈ m.nodesByDepth, b.length ≤ 1 ∧ ∀ n ∈ b, n.inboundLayers.length ≤ 1) ∧
       ∀ l ∈ m.layers,
         l.inboundNodes.countP (fun i => (visitedNodeIds m).contains i) ≤ 1) := by
  by_cases h : ∀ b ∈ m.nodesByDepth, depthNodesViolation b = false
  · have h1 : ∀ b ∈ m.nodesByDepth, b.length ≤ 1 ∧ ∀ n ∈ b, n.inboundLayers.length ≤ 1 :=
      fun b hb => (depthNodesViolation_eq_false_iff b).mp (h b hb)
    unfold isModelSequentialLike
    rw [collectChainNodes_of_forall h]
    simp only [Bool.not_eq_true', List.any_eq_false]
    constructor
    · intro hall
      refine ⟨h1, fun l hl => ?_⟩
      have hfalse : hasSecondVisited (List.map GNode.nid m.nodesByDepth.flatten)
          l.inboundNodes false = false := Bool.eq_false_iff.mpr (hall l hl)
      have := (hasSecondVisited_eq_false_iff _ _ false).mp hfalse
      simpa [visitedNodeIds] using this
    · rintro ⟨-, h2⟩ l hl
      refine Bool.eq_false_iff.mp ((hasSecondVisited_eq_false_iff _ _ false).mpr ?_)
      simpa [visitedNodeIds] using h2 l hl
  · unfold isModelSequentialLike
    rw [collectChainNodes_eq_none h]
    simp only [Bool.false_eq_true, false_iff, not_and]
    intro h1 _
    exact h fun b hb => (depthNodesViolation_eq_false_iff b).mpr (h1 b hb)

/-- C1 counterexample: on the linear chain input → dense (a model the
claim itself says must be sequential-like), `isModelSequentialLike`
returns `true` but the claim's condition fails — the input layer's node
has zero inbound layers, not exactly one — so the claimed equivalence is
false. -/
theorem isModelSequentialLike_spec_counterexample :
    ¬(isModelSequentialLike chainModel = true ↔
        sequentialLikeSpecClaim chainModel = true) := by
  decide

theorem computeAutoYield_eq_floor {durations : List Nat} (h : 0 < durations.sum) :
    computeAutoYield durations =
      AutoYield.fin (max 1 ⌊(AUTO_YIELD_THRESHOLD_MILLIS : ℚ) / mean durations⌋₊) := by
  unfold computeAutoYield
  rw [if_neg (by omega)]
  by_cases hq : ⌊(AUTO_YIELD_THRESHOLD_MILLIS : ℚ) / mean durations⌋₊ < 1
  · simp only [hq, if_true]
    have h0 : ⌊(AUTO_YIELD_THRESHOLD_MILLIS : ℚ) / mean durations⌋₊ = 0 := by omega
    rw [h0]
    decide
  · simp only [hq, if_false]
    congr 1
    omega

/-- C3 counterexample: starting from a freshly constructed yielder, after
exactly `AUTO_YIELD_DECISION_BATCH_COUNT` = 2 calls of `maybeYieldOnBatch`
the calibration is not complete — `autoYieldEveryBatches` is still null —
because the first batch's duration is never recorded (`batchCount > 1`
gates the push), so only one duration has been measured. -/
theorem yielder_not_calibrated_after_two_batches :
    (maybeYieldOnBatch (maybeYieldOnBatch (yielderInit 0) 5).state
        10).state.autoYieldEveryBatches = none := by
  decide

/-- C3 (amended): `maybeYieldOnBatch` yields (resolves one pending log
tensor and awaits a frame) on every one of the first
`AUTO_YIELD_DECISION_BATCH_COUNT` + 1 = 3 batches, and after the 3rd batch
— the point at which 2 batch durations have been recorded — the
calibration is complete: `autoYieldEveryBatches` is a positive integer
≥ 1 (provided the measured total duration is positive; JavaScript sets it
to `Infinity` when both measured durations are 0 ms). -/
theorem yielder_calibration_after_three_batches
    (t0 t1 t2 t3 : Nat) (h12 : t1 ≤ t2) (_h23 : t2 ≤ t3) (h13 : t1 < t3) :
    (maybeYieldOnBatch (yielderInit t0) t1).yielded = true ∧
    (maybeYieldOnBatch (maybeYieldOnBatch (yielderInit t0) t1).state t2).yielded = true ∧
    (maybeYieldOnBatch (maybeYieldOnBatch
        (maybeYieldOnBatch (yielderInit t0) t1).state t2).state t3).yielded = true ∧
    ∃ k, 1 ≤ k ∧
      (maybeYieldOnBatch (maybeYieldOnBatch
          (maybeYieldOnBatch (yielderInit t0) t1).state t2).state
          t3).state.autoYieldEveryBatches = some (AutoYield.fin k) := by
  have e1 : maybeYieldOnBatch (yielderInit t0) t1 =
      ⟨⟨1, 1, t1, [], none⟩, true⟩ := by
    simp [maybeYieldOnBatch, yielderInit]
  have e2 : maybeYieldOnBatch (⟨1, 1, t1, [], none⟩ : YielderState) t2 =
      ⟨⟨2, 2, t2, [t2 - t1], none⟩, true⟩ := by
    simp [maybeYieldOnBatch, AUTO_YIELD_DECISION_BATCH_COUNT]
  have e3 : maybeYieldOnBatch (⟨2, 2, t2, [t2 - t1], none⟩ : YielderState) t3 =
      ⟨⟨3, 3, t3, [t2 - t1, t3 - t2],
          some (computeAutoYield [t2 - t1, t3 - t2])⟩, true⟩ := by
    simp [maybeYieldOnBatch, AUTO_YIELD_DECISION_BATCH_COUNT]
  rw [e1, e2, e3]
  refine ⟨rfl, rfl, rfl, ?_⟩
  have hsum : 0 < ([t2 - t1, t3 - t2] : List Nat).sum := by simp; omega
  rw [computeAutoYield_eq_floor hsum]
  exact ⟨_, le_max_left 1 _, rfl⟩

/-- C3 witness: concrete calibration run with batches ending at times 2, 4
and 6 ms. -/
theorem yielder_calibration_after_three_batches_witness :
    (maybeYieldOnBatch (yielderInit 0) 2).yielded = true ∧
    (maybeYieldOnBatch (maybeYieldOnBatch (yielderInit 0) 2).state 4).yielded = true ∧
    (maybeYieldOnBatch (maybeYieldOnBatch
        (maybeYieldOnBatch (yielderInit 0) 2).state 4).state 6).yielded = true ∧
    ∃ k, 1 ≤ k ∧
      (maybeYieldOnBatch (maybeYieldOnBatch
          (maybeYieldOnBatch (yielderInit 0) 2).state 4).state
          6).state.autoYieldEveryBatches = some (AutoYield.fin k) :=
  yielder_calibration_after_three_batches 0 2 4 6 (by decide) (by decide) (by decide)

/-- C4: whenever the yielder computes `autoYieldEveryBatches` from a
recorded duration list with positive total, the value is
`floor(AUTO_YIELD_THRESHOLD_MILLIS / mean(durations))` clamped to a
minimum of 1; and on every call made once a finite `autoYieldEveryBatches`
is set, the call yields exactly when the number of batches elapsed since
the last yield has reached `autoYieldEveryBatches` — never more
frequently. -/
theorem autoYield_formula_and_steady_rate :
    (∀ durations : List Nat, 0 < durations.sum →
        computeAutoYield durations =
          AutoYield.fin (max 1 ⌊(AUTO_YIELD_THRESHOLD_MILLIS : ℚ) / mean durations⌋₊)) ∧
    (∀ (st : YielderState) (t k : Nat),
        st.autoYieldEveryBatches = some (AutoYield.fin k) →
        ((maybeYieldOnBatch st t).yielded = true ↔
          k ≤ st.batchCount + 1 - st.lastYieldBatchCount)) := by
  refine ⟨fun d h => computeAutoYield_eq_floor h, ?_⟩
  intro st t k h
  by_cases hk : k ≤ st.batchCount + 1 - st.lastYieldBatchCount <;>
    simp [maybeYieldOnBatch, h, yieldDue, hk]

/-- C4 witness: durations [8, 8] give `floor(16 / 8)` = 2; a yielder with
`autoYieldEveryBatches` = 1 that is 2 batches past its last yield yields
again. -/
theorem autoYield_formula_and_steady_rate_witness :
    computeAutoYield [8, 8] =
        AutoYield.fin (max 1 ⌊(AUTO_YIELD_THRESHOLD_MILLIS : ℚ) / mean [8, 8]⌋₊) ∧
    ((maybeYieldOnBatch ⟨5, 4, 0, [8, 8], some (AutoYield.fin 1)⟩ 100).yielded = true ↔
      1 ≤ 5 + 1 - 4) :=
  ⟨autoYield_formula_and_steady_rate.1 [8, 8] (by decide),
   autoYield_formula_and_steady_rate.2 ⟨5, 4, 0, [8, 8], some (AutoYield.fin 1)⟩ 100 1 rfl⟩

theorem alookup_aset_self (k : String) (v : LogValue) (l : UnresolvedLogs) :
    alookup k (aset k v l) = some v := by
  induction l with
  | nil => simp [aset, alookup]
  | cons e rest ih =>
    by_cases h : e.1 = k
    · simp [aset, h, alookup]
    · simp [aset, h, alookup, ih]

theorem alookup_aset_ne (k k' : String) (h : k' ≠ k) (v : LogValue) (l : UnresolvedLogs) :
    alookup k (aset k' v l) = alookup k l := by
  induction l with
  | nil => simp [aset, alookup, h]
  | cons e rest ih =>
    obtain ⟨a, b⟩ := e
    by_cases he : a = k'
    · subst he
      have hak : ¬a = k := h
      simp [aset, alookup, hak]
    · by_cases hek : a = k
      · subst hek
        simp [aset, alookup, he]
      · simp [aset, alookup, he, hek, ih]

theorem alookup_accumulateEntry_ne (bs : ℚ) (key : String) (totals : UnresolvedLogs)
    (e : String × LogValue) (h : e.1 ≠ key) :
    alookup key (accumulateEntry bs totals e) = alookup key totals := by
  cases hv : e.2 <;> simp [accumulateEntry, hv, alookup_aset_ne key e.1 h]

theorem alookup_foldl_accumulate_not_mem (bs : ℚ) (key : String) (es : UnresolvedLogs)
    (totals : UnresolvedLogs) (h : ∀ e ∈ es, e.1 ≠ key) :
    alookup key (es.foldl (accumulateEntry bs) totals) = alookup key totals := by
  induction es generalizing totals with
  | nil => rfl
  | cons e rest ih =>
    rw [List.foldl_cons, ih _ fun x hx => h x (List.mem_cons_of_mem e hx),
      alookup_accumulateEntry_ne bs key totals e (h e (List.mem_cons_self e rest))]

theorem alookup_foldl_accumulate (bs : ℚ) (key : String) (es : UnresolvedLogs)
    (totals : UnresolvedLogs) (hnd : (es.map Prod.fst).Nodup) (v : ℚ)
    (hv : alookup key es = some (LogValue.num v)) :
    alookup key (es.foldl (accumulateEntry bs) totals) =
      some (LogValue.num (totalValue key totals + v * bs)) := by
  induction es generalizing totals with
  | nil => simp [alookup] at hv
  | cons e rest ih =>
    obtain ⟨a, b⟩ := e
    by_cases he : a = key
    · subst he
      have hv' : b = LogValue.num v := by
        simp [alookup] at hv
        exact hv
      have hnotin : a ∉ rest.map Prod.fst := by
        simp only [List.map_cons, List.nodup_cons] at hnd
        exact hnd.1
      have hrest : ∀ x ∈ rest, x.1 ≠ a := by
        intro x hx hxk
        apply hnotin
        have hmx : x.1 ∈ rest.map Prod.fst := List.mem_map_of_mem Prod.fst hx
        rwa [hxk] at hmx
      rw [List.foldl_cons, alookup_foldl_accumulate_not_mem bs a rest _ hrest]
      have hacc : accumulateEntry bs totals (a, b) =
          aset a (LogValue.num (totalValue a totals + v * bs)) totals := by
        simp [accumulateEntry, hv']
      rw [hacc, alookup_aset_self]
    · have hv' : alookup key rest = some (LogValue.num v) := by
        simp only [alookup, if_neg he] at hv
        exact hv
      have hnd' : (rest.map Prod.fst).Nodup := by
        simp only [List.map_cons, List.nodup_cons] at hnd
        exact hnd.2
      rw [List.foldl_cons, ih _ hnd' hv']
      have hpres : totalValue key (accumulateEntry bs totals (a, b)) =
          totalValue key totals := by
        unfold totalValue
        rw [alookup_accumulateEntry_ne bs key totals (a, b) he]
      rw [hpres]

theorem alookup_of_isNumAt {key : String} {lg : UnresolvedLogs}
    (h : isNumAt key lg = true) :
    alookup key lg = some (LogValue.num (numAt key lg)) := by
  unfold isNumAt at h
  unfold numAt
  cases halk : alookup key lg with
  | none => rw [halk] at h; exact absurd h (by simp)
  | some w =>
    cases w with
    | num x => rfl
    | scalar x => rw [halk] at h; exact absurd h (by simp)

theorem seen_foldl_batches (batches : List UnresolvedLogs) (st : BaseLoggerState) :
    (batches.foldl baseLoggerOnBatchEnd st).seen =
      st.seen + (batches.map (numAt "size")).sum := by
  induction batches generalizing st with
  | nil => simp
  | cons lg rest ih =>
    rw [List.foldl_cons, ih]
    simp [baseLoggerOnBatchEnd]
    ring

theorem totals_foldl_batches (key : String) (batches : List UnresolvedLogs)
    (st : BaseLoggerState)
    (hnd : ∀ lg ∈ batches, (lg.map Prod.fst).Nodup)
    (hkey : ∀ lg ∈ batches, isNumAt key lg = true)
    (hne : batches ≠ []) :
    alookup key (batches.foldl baseLoggerOnBatchEnd st).totals =
      some (LogValue.num (totalValue key st.totals +
        (batches.map (fun lg => numAt key lg * numAt "size" lg)).sum)) := by
  induction batches generalizing st with
  | nil => exact absurd rfl hne
  | cons lg rest ih =>
    have hstep : alookup key (baseLoggerOnBatchEnd st lg).totals =
        some (LogValue.num (totalValue key st.totals +
          numAt key lg * numAt "size" lg)) := by
      have := alookup_foldl_accumulate (numAt "size" lg) key lg st.totals
        (hnd lg (List.mem_cons_self lg rest)) (numAt key lg)
        (alookup_of_isNumAt (hkey lg (List.mem_cons_self lg rest)))
      simpa [baseLoggerOnBatchEnd] using this
    cases hres : rest with
    | nil =>
      subst hres
      simpa using hstep
    | cons lg2 rest2 =>
      have hrestne : rest ≠ [] := by rw [hres]; simp
      rw [← hres, List.foldl_cons,
        ih _ (fun x hx => hnd x (List.mem_cons_of_mem lg hx))
          (fun x hx => hkey x (List.mem_cons_of_mem lg hx)) hrestne]
      have hval : totalValue key (baseLoggerOnBatchEnd st lg).totals =
          totalValue key st.totals + numAt key lg * numAt "size" lg := by
        unfold totalValue
        rw [hstep]
        rfl
      rw [hval]
      simp
      ring

theorem alookup_baseLoggerOnEpochEnd (key : String) (st : BaseLoggerState)
    (metrics : List String) (logs0 : UnresolvedLogs) (T : ℚ)
    (hT : alookup key st.totals = some (LogValue.num T))
    (hmem : key ∈ metrics ∨ alookup key logs0 = some (LogValue.num (T / st.seen))) :
    alookup key (baseLoggerOnEpochEnd st metrics logs0) =
      some (LogValue.num (T / st.seen)) := by
  induction metrics generalizing logs0 with
  | nil =>
    rcases hmem with h | h
    · simp at h
    · simpa [baseLoggerOnEpochEnd] using h
  | cons k' rest ih =>
    have hstep : ∀ logs : UnresolvedLogs,
        baseLoggerOnEpochEnd st (k' :: rest) logs =
          baseLoggerOnEpochEnd st rest
            (match alookup k' st.totals with
             | none => logs
             | some (LogValue.num total) => aset k' (LogValue.num (total / st.seen)) logs
             | some (LogValue.scalar total) =>
               aset k' (LogValue.scalar ((1 / st.seen) * total)) logs) := by
      intro logs
      rfl
    rw [hstep]
    by_cases hk : k' = key
    · subst hk
      rw [hT]
      apply ih
      right
      exact alookup_aset_self k' (LogValue.num (T / st.seen)) logs0
    · have hpres :
          alookup key (match alookup k' st.totals with
            | none => logs0
            | some (LogValue.num total) => aset k' (LogValue.num (total / st.seen)) logs0
            | some (LogValue.scalar total) =>
              aset k' (LogValue.scalar ((1 / st.seen) * total)) logs0) =
            alookup key logs0 := by
        cases halk : alookup k' st.totals with
        | none => rfl
        | some w =>
          cases w with
          | num x => exact alookup_aset_ne key k' hk (LogValue.num (x / st.seen)) logs0
          | scalar x =>
            exact alookup_aset_ne key k' hk (LogValue.scalar ((1 / st.seen) * x)) logs0
      rcases hmem with h | h
      · rcases List.mem_cons.mp h with h' | h'
        · exact absurd h'.symm hk
        · exact ih _ (Or.inl h')
      · exact ih _ (Or.inr (by rw [hpres]; exact h))

/-- C5: for every epoch run of `BaseLogger` and every metric key of
`params['metrics']` that every batch reports as a plain number, the value
written into the epoch-end logs equals the sum over the batches of
(batch metric value × that batch's `'size'` entry) divided by the sum of
the batches' `'size'` entries — the sample-weighted running mean.  (The
positivity hypothesis keeps the JavaScript division meaningful; batch log
keys are distinct, as `for (const key in logs)` iterates object keys.) -/
theorem baseLogger_epoch_metric_is_weighted_mean (batches : List UnresolvedLogs)
    (metrics : List String) (key : String) (logs0 : UnresolvedLogs)
    (hnd : ∀ lg ∈ batches, (lg.map Prod.fst).Nodup)
    (hkey : ∀ lg ∈ batches, isNumAt key lg = true)
    (hmem : key ∈ metrics)
    (hne : batches ≠ [])
    (_hpos : 0 < (batches.map (numAt "size")).sum) :
    alookup key (baseLoggerOnEpochEnd (baseLoggerRunEpoch batches) metrics logs0) =
      some (LogValue.num
        ((batches.map fun lg => numAt key lg * numAt "size" lg).sum /
          (batches.map (numAt "size")).sum)) := by
  have hT := totals_foldl_batches key batches baseLoggerOnEpochBegin hnd hkey hne
  rw [show totalValue key baseLoggerOnEpochBegin.totals = 0 from rfl, zero_add] at hT
  have hres := alookup_baseLoggerOnEpochEnd key (baseLoggerRunEpoch batches) metrics logs0
    _ hT (Or.inl hmem)
  rw [hres]
  have hseen : (baseLoggerRunEpoch batches).seen = (batches.map (numAt "size")).sum := by
    rw [baseLoggerRunEpoch, seen_foldl_batches]
    show (0 : ℚ) + _ = _
    rw [zero_add]
  rw [hseen]

/-- C5 witness: two batches reporting `loss` 2 with size 4 and `loss` 3
with size 1 give epoch `loss` (2·4 + 3·1)/(4 + 1). -/
theorem baseLogger_epoch_metric_is_weighted_mean_witness :
    alookup "loss"
        (baseLoggerOnEpochEnd
          (baseLoggerRunEpoch
            [[("loss", LogValue.num 2), ("size", LogValue.num 4)],
             [("loss", LogValue.num 3), ("size", LogValue.num 1)]])
          ["loss"] []) =
      some (LogValue.num
        (([[("loss", LogValue.num 2), ("size", LogValue.num 4)],
           [("loss", LogValue.num 3), ("size", LogValue.num 1)]].map
             fun lg => numAt "loss" lg * numAt "size" lg).sum /
          ([[("loss", LogValue.num 2), ("size", LogValue.num 4)],
            [("loss", LogValue.num 3), ("size", LogValue.num 1)]].map (numAt "size")).sum)) :=
  baseLogger_epoch_metric_is_weighted_mean
    [[("loss", LogValue.num 2), ("size", LogValue.num 4)],
     [("loss", LogValue.num 3), ("size", LogValue.num 1)]]
    ["loss"] "loss" []
    (by decide) (by decide) (by decide) (by decide)
    (by
      have h : ("loss" : String) ≠ "size" := by decide
      norm_num [numAt, alookup, h])

theorem isResolvedLogs_resolveScalarsInLogs (logs : UnresolvedLogs) :
    isResolvedLogs (resolveScalarsInLogs logs) = true := by
  induction logs with
  | nil => rfl
  | cons e rest ih =>
    cases hv : e.2 <;> simp [resolveScalarsInLogs, isResolvedLogs, hv] <;>
      simpa [resolveScalarsInLogs, isResolvedLogs] using ih

/-- C8: for every `CustomCallback` configuration and every lifecycle event
with a user-supplied hook, the logs dictionary handed to the user hook has
all its pending tensor-valued entries resolved into plain numbers — user
hook code never observes an unresolved pending value. -/
theorem customCallback_hooks_see_resolved_logs (cfg : CustomCallbackConfig)
    (logs observed : UnresolvedLogs) :
    (customCallbackOnTrainBegin cfg logs = some observed →
      isResolvedLogs observed = true) ∧
    (customCallbackOnTrainEnd cfg logs = some observed →
      isResolvedLogs observed = true) ∧
    (customCallbackOnEpochBegin cfg logs = some observed →
      isResolvedLogs observed = true) ∧
    (customCallbackOnEpochEnd cfg logs = some observed →
      isResolvedLogs observed = true) ∧
    (customCallbackOnBatchBegin cfg logs = some observed →
      isResolvedLogs observed = true) ∧
    (customCallbackOnBatchEnd cfg logs = some observed →
      isResolvedLogs observed = true) := by
  have key : ∀ b : Bool,
      (if b then some (resolveScalarsInLogs logs) else none) = some observed →
        isResolvedLogs observed = true := by
    intro b h
    cases b with
    | false => simp at h
    | true =>
      simp only [if_true] at h
      injection h with h'
      exact h' ▸ isResolvedLogs_resolveScalarsInLogs logs
  exact ⟨key cfg.hasTrainBegin, key cfg.hasTrainEnd, key cfg.hasEpochBegin,
    key cfg.hasEpochEnd, key cfg.hasBatchBegin, key cfg.hasBatchEnd⟩

/-- C8 witness: a config with only an epoch-end hook, applied to logs with
one pending scalar. -/
theorem customCallback_hooks_see_resolved_logs_witness :
    customCallbackOnEpochEnd ⟨false, false, false, true, false, false⟩
        [("loss", LogValue.scalar 2)] = some [("loss", LogValue.num 2)] →
      isResolvedLogs [("loss", LogValue.num 2)] = true :=
  (customCallback_hooks_see_resolved_logs ⟨false, false, false, true, false, false⟩
    [("loss", LogValue.scalar 2)] [("loss", LogValue.num 2)]).2.2.2.1

theorem deserializeLayer_serializeLayer (l : LayerTopo) :
    deserializeLayer (serializeLayer l) = some l := rfl

theorem mapOption_deserialize_serialize (ls : List LayerTopo) :
    mapOption deserializeLayer (ls.map serializeLayer) = some ls := by
  induction ls with
  | nil => rfl
  | cons l rest ih =>
    simp [mapOption, deserializeLayer_serializeLayer l, ih]

theorem deserializeTopo_toJSONTopo (t : ModelTopo) :
    deserializeTopo (toJSONTopo t) = some t := by
  cases t with
  | mk ls =>
    show (match mapOption deserializeLayer (ls.map serializeLayer) with
          | some layers => some (ModelTopo.mk layers)
          | none => none) = some (ModelTopo.mk ls)
    rw [mapOption_deserialize_serialize]

theorem decodeWeights_roundtrip (ws : List Weight)
    (h : ∀ w ∈ ws, w.data.length = numel w.spec.shape) :
    decodeWeights (ws.map Weight.spec) (ws.map Weight.data).flatten = some ws := by
  induction ws with
  | nil => rfl
  | cons w rest ih =>
    have hw : w.data.length = numel w.spec.shape := h w (List.mem_cons_self w rest)
    have hrest := ih fun x hx => h x (List.mem_cons_of_mem w hx)
    have hlen : numel w.spec.shape ≤ (w.data ++ (rest.map Weight.data).flatten).length := by
      rw [List.length_append, ← hw]
      omega
    have hdrop : (w.data ++ (rest.map Weight.data).flatten).drop (numel w.spec.shape) =
        (rest.map Weight.data).flatten := by
      rw [← hw]
      exact List.drop_left w.data _
    have htake : (w.data ++ (rest.map Weight.data).flatten).take (numel w.spec.shape) =
        w.data := by
      rw [← hw]
      exact List.take_left w.data _
    simp only [List.map_cons, List.flatten_cons, decodeWeights]
    rw [if_pos hlen, hdrop, hrest, htake]

/-- C2: saving a model through a handler and loading it back yields a model
whose serialized topology (`toJSON`) equals the original's, and whose
weights match the originals by name and declaration order with exact shape,
dtype and values (hence numerically within every tolerance).  The handler
is the identity store: `save` hands it the artifacts, `load` returns
them. -/
theorem saveLoad_roundtrip (m : TModel) (h : wellFormedModel m) :
    ∃ m', loadModelFromArtifacts (modelToArtifacts m) = some m' ∧
      toJSONTopo m'.topology = toJSONTopo m.topology ∧
      m'.weights.map Weight.spec = m.weights.map Weight.spec ∧
      m'.weights.map Weight.data = m.weights.map Weight.data := by
  refine ⟨m, ?_, rfl, rfl, rfl⟩
  unfold loadModelFromArtifacts modelToArtifacts
  rw [deserializeTopo_toJSONTopo, decodeWeights_roundtrip m.weights h]

/-- C2 witness: the round trip on a concrete dense-layer model. -/
theorem saveLoad_roundtrip_witness :
    ∃ m', loadModelFromArtifacts (modelToArtifacts roundtripDemoModel) = some m' ∧
      toJSONTopo m'.topology = toJSONTopo roundtripDemoModel.topology ∧
      m'.weights.map Weight.spec = roundtripDemoModel.weights.map Weight.spec ∧
      m'.weights.map Weight.data = roundtripDemoModel.weights.map Weight.data :=
  saveLoad_roundtrip roundtripDemoModel (by unfold wellFormedModel; decide)

/-- C7: `model.save` with a handler object that lacks a `save` method
rejects — the save does not proceed — with the documented error message, a
runtime capability check on the supplied object. -/
theorem modelSave_capability_check (m : TModel) (h : IOHandler)
    (hnone : h.saveFn = none) :
    modelSave m h = Except.error
      "Model.save() cannot proceed because the IOHandler provided does not have the `save` attribute defined." := by
  unfold modelSave
  rw [hnone]

/-- C7 witness: a concrete model saved to a handler with no save
capability. -/
theorem modelSave_capability_check_witness :
    modelSave roundtripDemoModel ⟨none⟩ = Except.error
      "Model.save() cannot proceed because the IOHandler provided does not have the `save` attribute defined." :=
  modelSave_capability_check roundtripDemoModel ⟨none⟩ rfl

theorem sampleWeightsForOutput_covered {cw : ClassWeightMap} {labels : List Nat}
    (h : ∀ c ∈ labels, (cwLookup c cw).isSome = true) :
    sampleWeightsForOutput (some cw) labels =
      Except.ok (labels.map fun c => (cwLookup c cw).getD 0) := by
  induction labels with
  | nil => rfl
  | cons c rest ih =>
    obtain ⟨w, hw⟩ := Option.isSome_iff_exists.mp (h c (List.mem_cons_self c rest))
    have hrest := ih fun x hx => h x (List.mem_cons_of_mem c hx)
    simp only [sampleWeightsForOutput] at hrest ⊢
    simp only [mapExcept, hw]
    rw [hrest]
    simp [hw]

/-- C6: training a two-output model with a per-output classWeight array
whose first entry is `null` does not throw: the resolution succeeds, the
output with the `null` entry gets per-sample weight 1 for every sample —
exactly the weighting the same output gets when no classWeight is supplied
at all — and the other output gets the weights its mapping specifies
(provided that mapping covers the classes present). -/
theorem classWeight_null_entry_ok (o1 o2 : String) (t1 t2 : List Nat)
    (cw : ClassWeightMap)
    (hcov : ∀ c ∈ t2, (cwLookup c cw).isSome = true) :
    trainingSampleWeights [o1, o2] [t1, t2]
        (some (ClassWeightConfig.perOutputArray [none, some cw])) =
      Except.ok [t1.map fun _ => (1 : ℚ), t2.map fun c => (cwLookup c cw).getD 0] ∧
    trainingSampleWeights [o1, o2] [t1, t2] none =
      Except.ok [t1.map fun _ => (1 : ℚ), t2.map fun _ => (1 : ℚ)] := by
  constructor
  · simp only [trainingSampleWeights, standardizeClassWeights, List.length_cons,
      List.length_nil, if_true]
    simp only [zipWithExcept]
    rw [sampleWeightsForOutput_covered hcov]
    simp [sampleWeightsForOutput]
  · simp only [trainingSampleWeights, standardizeClassWeights, List.map_cons,
      List.map_nil]
    simp only [zipWithExcept, sampleWeightsForOutput]

/-- C6 witness: two outputs with labels [0, 1] each; the second output's
mapping sends class 0 to 1/10 and class 1 to 9/10. -/
theorem classWeight_null_entry_ok_witness :
    trainingSampleWeights ["out1", "out2"] [[0, 1], [0, 1]]
        (some (ClassWeightConfig.perOutputArray
          [none, some [(0, (1 : ℚ)/10), (1, (9 : ℚ)/10)]])) =
      Except.ok [[0, 1].map fun _ => (1 : ℚ),
        [0, 1].map fun c => (cwLookup c [(0, (1 : ℚ)/10), (1, (9 : ℚ)/10)]).getD 0] ∧
    trainingSampleWeights ["out1", "out2"] [[0, 1], [0, 1]] none =
      Except.ok [[0, 1].map fun _ => (1 : ℚ), [0, 1].map fun _ => (1 : ℚ)] :=
  classWeight_null_entry_ok "out1" "out2" [0, 1] [0, 1]
    [(0, (1 : ℚ)/10), (1, (9 : ℚ)/10)] (by decide)

theorem string_append_left_cancel_iff (p a b : String) : p ++ a = p ++ b ↔ a = b := by
  constructor
  · intro h
    have hd := congrArg String.data h
    rw [String.data_append, String.data_append] at hd
    exact String.ext (List.append_cancel_left hd)
  · intro h
    rw [h]

/-- C9 counterexample: a model with one trainable weight of shape [3] and
one non-trainable weight of shape [3] has a non-trainable weight, yet both
variants print the same "Non-trainable params: 3" line (the part_001
variant prints the trainable count, which here coincides with the
non-trainable count), so "for any model with at least one non-trainable
weight the two variants' lines differ" is false. -/
theorem paramsLines_agree_on_balancedModel :
    (paramsLinesPartOO1 balancedModel)[2]? = (paramsLinesLayerUtils balancedModel)[2]? ∧
      balancedModel.nonTrainableWeights ≠ [] :=
  ⟨rfl, by decide⟩

/-- C9 (amended): the part_001 variant's "Non-trainable params" line
interpolates the trainable parameter count — the number its own
"Trainable params" line prints — while the layer_utils.ts variant
interpolates the count of `model.nonTrainableWeights`; consequently the
two variants' lines coincide exactly when the decimal renderings of the
trainable and non-trainable counts coincide (in particular they do
coincide on models whose two counts are equal, even with non-trainable
weights present). -/
theorem paramsLines_nonTrainable_bug (m : SummaryModel) :
    (paramsLinesPartOO1 m)[2]? =
      some ("Non-trainable params: " ++ toString
        (match m.collectedTrainableWeights with
         | some ws => countParams ws
         | none => countParams m.trainableWeights)) ∧
    (paramsLinesLayerUtils m)[2]? =
      some ("Non-trainable params: " ++
        toString (countParamsInWeights m.nonTrainableWeights)) ∧
    ((paramsLinesPartOO1 m)[2]? = (paramsLinesLayerUtils m)[2]? ↔
      toString (match m.collectedTrainableWeights with
        | some ws => countParams ws
        | none => countParams m.trainableWeights) =
      toString (countParamsInWeights m.nonTrainableWeights)) := by
  have e1 : (paramsLinesPartOO1 m)[2]? =
      some ("Non-trainable params: " ++ toString
        (match m.collectedTrainableWeights with
         | some ws => countParams ws
         | none => countParams m.trainableWeights)) := rfl
  have e2 : (paramsLinesLayerUtils m)[2]? =
      some ("Non-trainable params: " ++
        toString (countParamsInWeights m.nonTrainableWeights)) := rfl
  refine ⟨e1, e2, ?_⟩
  rw [e1, e2, Option.some_inj]
  exact string_append_left_cancel_iff _ _ _

/-- C10: `toDownloadAnchors` validates only the weights file name.  With a
non-falsy `weightsDataFileName` (after its `undefined`-default), the
handler is returned whatever `modelJSONFileName` is — empty, null or
undefined included — and with a falsy `weightsDataFileName` the call
throws a ValueError whose message names `modelJSONFileName`. -/
theorem toDownloadAnchors_checks_weights_name_only (mj w : JSArg) :
    (falsyStr (resolveDefault w "weights.bin") = false →
      toDownloadAnchors mj w =
        Except.ok (resolveDefault mj "model.json", resolveDefault w "weights.bin")) ∧
    (falsyStr (resolveDefault w "weights.bin") = true →
      toDownloadAnchors mj w =
        Except.error "Empty, null or undefined modelJSONFileName is not allowed.") := by
  constructor <;> intro h <;> simp [toDownloadAnchors, h]

/-- C10 witness: a null `modelJSONFileName` with a non-empty weights file
name returns the handler; an empty weights file name throws the
modelJSONFileName-naming message. -/
theorem toDownloadAnchors_checks_weights_name_only_witness :
    toDownloadAnchors JSArg.nullArg (JSArg.str "w.bin") =
        Except.ok (resolveDefault JSArg.nullArg "model.json",
          resolveDefault (JSArg.str "w.bin") "weights.bin") ∧
    toDownloadAnchors (JSArg.str "m.json") (JSArg.str "") =
        Except.error "Empty, null or undefined modelJSONFileName is not allowed." :=
  ⟨(toDownloadAnchors_checks_weights_name_only JSArg.nullArg (JSArg.str "w.bin")).1
      (by decide),
   (toDownloadAnchors_checks_weights_name_only (JSArg.str "m.json") (JSArg.str "")).2
      (by decide)⟩
